import Mathlib

/-!
Shallow embedding of `src/Farm_2.py` (Farm Bin & Delivery Tracker).

The script keeps three CSV-backed tables: `bin_setup` (one row per bin with
columns Bin, Capacity_bu, Variety, Bushels_in_bin), `deliveries` and
`unloads`.  Each Streamlit handler reads the tables, mutates them and saves.
We model the persisted state as a `State` of three lists, quantities as `ℚ`
(the script only compares, adds and subtracts floats), and each handler as a
pure function from inputs and state to `Except` of an error or an outcome.
Python's `str.strip()` is embedded as `strip` below.
-/

namespace Farm

/-- Whitespace test used by Python's `str.strip()`; embedded with Lean's
`Char.isWhitespace`. -/
def isSpace (c : Char) : Bool := c.isWhitespace

/-- Strip leading and trailing whitespace from a list of characters:
the embedding of Python's `str.strip()` on the character sequence. -/
def stripList (l : List Char) : List Char :=
  ((l.dropWhile isSpace).reverse.dropWhile isSpace).reverse

/-- Embedding of Python's `str.strip()`. -/
def strip (s : String) : String := ⟨stripList s.data⟩

/-- One row of `bin_setup.csv`: Bin, Capacity_bu, Variety, Bushels_in_bin. -/
structure Bin where
  name : String
  capacity : ℚ
  variety : String
  fill : ℚ
deriving Repr, DecidableEq

/-- One row of `deliveries.csv`: Timestamp, Truck, Bin, Variety, Bushels,
Notes (column order as in `load_deliveries`). -/
structure DeliveryRow where
  timestamp : String
  truck : String
  bin : String
  variety : String
  bushels : ℚ
  notes : String
deriving Repr, DecidableEq

/-- One row of `unloads.csv`: Timestamp, Bin, Variety, Bushels, Destination,
Notes. -/
structure UnloadRow where
  timestamp : String
  bin : String
  variety : String
  bushels : ℚ
  dest : String
  notes : String
deriving Repr, DecidableEq

/-- The persisted state: the three tables. -/
structure State where
  bins : List Bin
  deliveries : List DeliveryRow
  unloads : List UnloadRow
deriving Repr, DecidableEq

/-- Error outcomes surfaced by `st.error` in the handlers.  `invalidInput`
is the "Please select a bin and enter bushels > 0" / "Please enter a bin
name" path; `binNotFound` is the (UI-unreachable) empty lookup of
`bin_setup.index[...][0]`; `varietyMismatch cur given` is the
"already has 'cur'. Can't mix with 'given'" path. -/
inductive FarmError where
  | invalidInput
  | binNotFound
  | varietyMismatch (current given : String)
deriving Repr, DecidableEq

/-- Replace the first element satisfying `p` by its image under `g`
(the model of writing back `bin_setup.at[idx, ...]` where `idx` is the
first index whose Bin column matches). -/
def updateFirst (p : Bin → Bool) (g : Bin → Bin) : List Bin → List Bin
  | [] => []
  | b :: t => if p b then g b :: t else b :: updateFirst p g t

/-- Result of a successful delivery submission: the new state, the amount
actually added to the bin (`add_amt`), whether the capacity-clamp warning
(`Adding would exceed capacity ...`) was shown, and the excess it reported. -/
structure DeliveryOutcome where
  state : State
  addAmt : ℚ
  clamped : Bool
  excess : ℚ
deriving Repr, DecidableEq

/-- Per-bin part of the `submit_delivery` handler (`Farm_2.py` lines
218-241): variety adoption on first fill, mismatch rejection, capacity
clamp, fill update.  Returns the updated bin, `current_var`, `add_amt`,
whether the clamp warning fired, and the reported excess. -/
def deliverCore (b : Bin) (variety : String) (bushels : ℚ) :
    Except FarmError (Bin × String × ℚ × Bool × ℚ) :=
  let cv0 := strip b.variety
  let cv := if cv0 = "" then strip variety else cv0
  let b1 := if cv0 = "" then { b with variety := strip variety } else b
  if strip variety ≠ cv then
    .error (.varietyMismatch cv (strip variety))
  else
    let cap := b1.capacity
    let current := b1.fill
    let remaining := max 0 (cap - current)
    if cap > 0 ∧ bushels > remaining then
      .ok ({ b1 with fill := current + remaining }, cv, remaining, true,
           bushels - remaining)
    else
      .ok ({ b1 with fill := current + bushels }, cv, bushels, false, 0)

/-- The `submit_delivery` handler (`Farm_2.py` lines 214-254): input guard,
first-index lookup by bin name, per-bin delivery logic, and append of the
delivery row.  The appended row records `Bushels := bushels` — the full
requested amount, as in line 250 — and `Variety := current_var`. -/
def submit_delivery (s : State) (ts truck bin_choice variety : String)
    (bushels : ℚ) (notes : String) : Except FarmError DeliveryOutcome :=
  if bin_choice = "" ∨ bushels ≤ 0 then .error .invalidInput
  else
    match s.bins.find? (fun b => b.name = bin_choice) with
    | none => .error .binNotFound
    | some b =>
      match deliverCore b variety bushels with
      | .error e => .error e
      | .ok (b', cv, addAmt, cl, ex) =>
        let row : DeliveryRow :=
          ⟨ts, strip truck, bin_choice, cv, bushels, strip notes⟩
        .ok ⟨⟨updateFirst (fun bb => bb.name = bin_choice) (fun _ => b') s.bins,
              s.deliveries ++ [row], s.unloads⟩, addAmt, cl, ex⟩

/-- The state after a delivery submission: the new state on success, the
old state otherwise (an error path performs no save). -/
def applyDelivery (s : State) (ts truck bin_choice variety : String)
    (bushels : ℚ) (notes : String) : State :=
  match submit_delivery s ts truck bin_choice variety bushels notes with
  | .ok o => o.state
  | .error _ => s

/-- Result of a successful unload submission: new state, amount taken and
whether the "only ... available" warning was shown. -/
structure UnloadOutcome where
  state : State
  take : ℚ
  insufficient : Bool
deriving Repr, DecidableEq

/-- The `submit_unload` handler (`Farm_2.py` lines 271-302): input guard,
first-index lookup, clamp of the request to the current fill, fill update
`max(0, current - take)`, and append of the unload row (Bushels := take,
Variety := the bin's stripped variety). -/
def submit_unload (s : State) (ts bin_choice dest : String)
    (bushels_u : ℚ) (notes : String) : Except FarmError UnloadOutcome :=
  if bin_choice = "" ∨ bushels_u ≤ 0 then .error .invalidInput
  else
    match s.bins.find? (fun b => b.name = bin_choice) with
    | none => .error .binNotFound
    | some b =>
      let current := b.fill
      let var_here := strip b.variety
      let take := if bushels_u > current then current else bushels_u
      let b' : Bin := { b with fill := max 0 (current - take) }
      let row : UnloadRow :=
        ⟨ts, bin_choice, var_here, take, strip dest, strip notes⟩
      .ok ⟨⟨updateFirst (fun bb => bb.name = bin_choice) (fun _ => b') s.bins,
            s.deliveries, s.unloads ++ [row]⟩, take, bushels_u > current⟩

/-- The "Add / Update Bin" form handler (`Farm_2.py` lines 137-168).  If the
raw name matches an existing row, that row's capacity (when the input is
`≥ 0`) and stripped variety are overwritten in place; otherwise a new row
with `fill = 0` is appended.  No duplicate-name error exists. -/
def add_update_bin (s : State) (bin_name : String) (capacity : ℚ)
    (variety : String) : Except FarmError State :=
  if strip bin_name = "" then .error .invalidInput
  else
    match s.bins.find? (fun b => b.name = bin_name) with
    | some _ =>
      let g : Bin → Bin := fun b =>
        { b with capacity := if 0 ≤ capacity then capacity else b.capacity,
                 variety := strip variety }
      .ok { s with bins := updateFirst (fun b => b.name = bin_name) g s.bins }
    | none =>
      let newRow : Bin :=
        ⟨strip bin_name, if capacity = 0 then 0 else capacity, strip variety, 0⟩
      .ok { s with bins := s.bins ++ [newRow] }

/-- The "Save Changes" handler in Edit / Remove Bins (`Farm_2.py` lines
186-193): unconditionally overwrites name, capacity and variety of the
selected bin, optionally resetting its fill to 0.  The capacity field of
this form has no lower bound and no check against the current fill. -/
def save_changes (s : State) (sel new_name : String) (new_cap : ℚ)
    (new_var : String) (reset_fill : Bool) : State :=
  let g : Bin → Bin := fun b =>
    { b with name := strip new_name, capacity := new_cap,
             variety := strip new_var,
             fill := if reset_fill then 0 else b.fill }
  { s with bins := updateFirst (fun b => b.name = sel) g s.bins }

/-- The "Delete Bin" handler (`Farm_2.py` lines 194-197): drops the selected
row unconditionally — there is no emptiness check. -/
def delete_bin (s : State) (sel : String) : State :=
  { s with bins := s.bins.eraseP (fun b => b.name = sel) }

/-- The sidebar "Reset Bin Fill to 0" handler (`Farm_2.py` lines 91-96). -/
def reset_all_fill (s : State) : State :=
  { s with bins := s.bins.map (fun b => { b with fill := 0 }) }

/-- The spec's per-bin invariant: `0 ≤ fill` and
(`capacity == 0` or `fill ≤ capacity`). -/
def binOK (b : Bin) : Prop := 0 ≤ b.fill ∧ (b.capacity = 0 ∨ b.fill ≤ b.capacity)

instance (b : Bin) : Decidable (binOK b) := by unfold binOK; infer_instance

/-- The invariant for a whole state: every bin satisfies `binOK`. -/
def stateOK (s : State) : Prop := ∀ b ∈ s.bins, binOK b

instance (s : State) : Decidable (stateOK s) := by
  unfold stateOK; exact List.decidableBAll _ _

/-! ### Helper lemmas -/

theorem dropWhile_idem (p : α → Bool) (l : List α) :
    (l.dropWhile p).dropWhile p = l.dropWhile p := by
  cases h : l.dropWhile p with
  | nil => simp
  | cons a t =>
    have hn := List.head?_dropWhile_not p l
    rw [h] at hn
    simp only [List.head?_cons] at hn
    rw [List.dropWhile_cons_of_neg (by simp [hn])]

theorem dropWhile_stripList (l : List Char) :
    (stripList l).dropWhile isSpace = stripList l := by
  obtain ⟨u, hu⟩ :=
    List.dropWhile_suffix (l := (l.dropWhile isSpace).reverse) isSpace
  have hA : l.dropWhile isSpace = stripList l ++ u.reverse := by
    have := congrArg List.reverse hu
    simpa [stripList] using this.symm
  generalize stripList l = m at hA ⊢
  cases m with
  | nil => rfl
  | cons c w =>
    have hn := List.head?_dropWhile_not isSpace l
    rw [hA] at hn
    simp only [List.cons_append, List.head?_cons] at hn
    exact List.dropWhile_cons_of_neg (by simp [hn])

theorem stripList_idem (l : List Char) : stripList (stripList l) = stripList l := by
  have h1 : stripList (stripList l) =
      ((stripList l).reverse.dropWhile isSpace).reverse := by
    rw [stripList, dropWhile_stripList]
  rw [h1, stripList, List.reverse_reverse, dropWhile_idem]

/-- Python's `strip` is idempotent. -/
theorem strip_strip (s : String) : strip (strip s) = strip s :=
  congrArg String.mk (stripList_idem s.data)

theorem find?_updateFirst {p : Bin → Bool} {g : Bin → Bin} {l : List Bin} {b : Bin}
    (h : l.find? p = some b) (hg : p (g b) = true) :
    (updateFirst p g l).find? p = some (g b) := by
  induction l with
  | nil => simp at h
  | cons a t ih =>
    by_cases hpa : p a
    · rw [List.find?_cons_of_pos _ hpa] at h
      injection h with h
      subst h
      simp only [updateFirst, if_pos hpa]
      rw [List.find?_cons_of_pos _ hg]
    · rw [List.find?_cons_of_neg _ hpa] at h
      simp only [updateFirst, if_neg hpa]
      rw [List.find?_cons_of_neg _ hpa]
      exact ih h

theorem mem_updateFirst {p : Bin → Bool} {g : Bin → Bin} {l : List Bin} {b' : Bin}
    (h : b' ∈ updateFirst p g l) : b' ∈ l ∨ ∃ b ∈ l, b' = g b := by
  induction l with
  | nil => simp [updateFirst] at h
  | cons a t ih =>
    rw [updateFirst] at h
    by_cases hpa : p a
    · rw [if_pos hpa] at h
      rcases List.mem_cons.mp h with h1 | h1
      · exact Or.inr ⟨a, List.mem_cons_self a t, h1⟩
      · exact Or.inl (List.mem_cons_of_mem _ h1)
    · rw [if_neg hpa] at h
      rcases List.mem_cons.mp h with h1 | h1
      · exact Or.inl (h1 ▸ List.mem_cons_self a t)
      · rcases ih h1 with h2 | ⟨b, hb, he⟩
        · exact Or.inl (List.mem_cons_of_mem _ h2)
        · exact Or.inr ⟨b, List.mem_cons_of_mem _ hb, he⟩

/-- `deliverCore` on a bin with no (stripped) assigned variety: the
delivered variety is adopted and the delivery is accepted, clamped when
the bin has a positive capacity and the quantity exceeds the remaining
room. -/
theorem deliverCore_adopt {b : Bin} {v : String} {q : ℚ}
    (h : strip b.variety = "") :
    deliverCore b v q =
      if b.capacity > 0 ∧ q > max 0 (b.capacity - b.fill) then
        .ok (⟨b.name, b.capacity, strip v, b.fill + max 0 (b.capacity - b.fill)⟩,
             strip v, max 0 (b.capacity - b.fill), true,
             q - max 0 (b.capacity - b.fill))
      else
        .ok (⟨b.name, b.capacity, strip v, b.fill + q⟩, strip v, q, false, 0) := by
  simp [deliverCore, h]

/-- `deliverCore` on a bin whose stripped variety is non-empty and matches
the stripped delivered variety: the bin's variety is kept and the delivery
is accepted, clamped as needed. -/
theorem deliverCore_keep {b : Bin} {v : String} {q : ℚ}
    (h1 : ¬ strip b.variety = "") (h2 : strip v = strip b.variety) :
    deliverCore b v q =
      if b.capacity > 0 ∧ q > max 0 (b.capacity - b.fill) then
        .ok (⟨b.name, b.capacity, b.variety, b.fill + max 0 (b.capacity - b.fill)⟩,
             strip b.variety, max 0 (b.capacity - b.fill), true,
             q - max 0 (b.capacity - b.fill))
      else
        .ok (⟨b.name, b.capacity, b.variety, b.fill + q⟩,
             strip b.variety, q, false, 0) := by
  simp [deliverCore, h1, h2]

/-- `deliverCore` rejects when the stripped varieties are non-empty and
different, reporting the bin's variety and the offered one. -/
theorem deliverCore_mismatch {b : Bin} {v : String} {q : ℚ}
    (h1 : ¬ strip b.variety = "") (h2 : ¬ strip v = strip b.variety) :
    deliverCore b v q =
      .error (.varietyMismatch (strip b.variety) (strip v)) := by
  simp [deliverCore, h1, h2]

/-- Unfolding of `submit_delivery` once the guard passes and the lookup
finds a bin. -/
theorem submit_delivery_some (s : State) (ts truck bc v : String) (q : ℚ)
    (notes : String) (b : Bin) (hbc : bc ≠ "") (hq : 0 < q)
    (hfind : s.bins.find? (fun bb => bb.name = bc) = some b) :
    submit_delivery s ts truck bc v q notes =
      match deliverCore b v q with
      | .error e => .error e
      | .ok (b', cv, addAmt, cl, ex) =>
        .ok ⟨⟨updateFirst (fun bb => bb.name = bc) (fun _ => b') s.bins,
              s.deliveries ++ [⟨ts, strip truck, bc, cv, q, strip notes⟩],
              s.unloads⟩, addAmt, cl, ex⟩ := by
  rw [submit_delivery, if_neg (by push_neg; exact ⟨hbc, hq⟩), hfind]

/-- Unfolding of `submit_unload` once the guard passes and the lookup
finds a bin. -/
theorem submit_unload_some (s : State) (ts bc dest : String) (q : ℚ)
    (notes : String) (b : Bin) (hbc : bc ≠ "") (hq : 0 < q)
    (hfind : s.bins.find? (fun bb => bb.name = bc) = some b) :
    submit_unload s ts bc dest q notes =
      .ok ⟨⟨updateFirst (fun bb => bb.name = bc)
              (fun _ => { b with
                fill := max 0 (b.fill - if q > b.fill then b.fill else q) }) s.bins,
            s.deliveries,
            s.unloads ++ [⟨ts, bc, strip b.variety,
              (if q > b.fill then b.fill else q), strip dest, strip notes⟩]⟩,
           (if q > b.fill then b.fill else q), q > b.fill⟩ := by
  rw [submit_unload, if_neg (by push_neg; exact ⟨hbc, hq⟩), hfind]

/-- A successful delivery implies the guard passed and the lookup found a
bin. -/
theorem submit_delivery_ok_inv {s : State} {ts truck bc v : String} {q : ℚ}
    {notes : String} {out : DeliveryOutcome}
    (h : submit_delivery s ts truck bc v q notes = .ok out) :
    bc ≠ "" ∧ 0 < q ∧ ∃ b, s.bins.find? (fun bb => bb.name = bc) = some b := by
  by_cases hg : bc = "" ∨ q ≤ 0
  · rw [submit_delivery, if_pos hg] at h
    exact absurd h (by simp)
  · push_neg at hg
    refine ⟨hg.1, hg.2, ?_⟩
    rw [submit_delivery, if_neg (by push_neg; exact hg)] at h
    cases hf : s.bins.find? (fun bb => bb.name = bc) with
    | none => rw [hf] at h; simp at h
    | some b => exact ⟨b, rfl⟩

/-- Shape of any successful delivery: the final state is the registry with
the found bin replaced by `deliverCore`'s bin, plus one appended delivery
row whose Bushels field is the requested quantity. -/
theorem submit_delivery_ok_shape {s : State} {ts truck bc v : String} {q : ℚ}
    {notes : String} {out : DeliveryOutcome}
    (h : submit_delivery s ts truck bc v q notes = .ok out) :
    0 < q ∧ ∃ b b' cv, s.bins.find? (fun bb => bb.name = bc) = some b ∧
      deliverCore b v q = .ok (b', cv, out.addAmt, out.clamped, out.excess) ∧
      out.state = ⟨updateFirst (fun bb => bb.name = bc) (fun _ => b') s.bins,
                   s.deliveries ++ [⟨ts, strip truck, bc, cv, q, strip notes⟩],
                   s.unloads⟩ := by
  obtain ⟨hbc, hq, b, hfind⟩ := submit_delivery_ok_inv h
  rw [submit_delivery_some s ts truck bc v q notes b hbc hq hfind] at h
  refine ⟨hq, b, ?_⟩
  cases hd : deliverCore b v q with
  | error e => rw [hd] at h; exact absurd h (by simp)
  | ok tup =>
    obtain ⟨b', cv, a, c, e⟩ := tup
    rw [hd] at h
    have h2 : Except.ok (ε := FarmError)
        (⟨⟨updateFirst (fun bb => bb.name = bc) (fun _ => b') s.bins,
           s.deliveries ++ [⟨ts, strip truck, bc, cv, q, strip notes⟩],
           s.unloads⟩, a, c, e⟩ : DeliveryOutcome) = .ok out := h
    injection h2 with h3
    subst h3
    exact ⟨b', cv, hfind, rfl, rfl⟩

/-- Shape of any successful unload. -/
theorem submit_unload_ok_shape {s : State} {ts bc dest : String} {q : ℚ}
    {notes : String} {out : UnloadOutcome}
    (h : submit_unload s ts bc dest q notes = .ok out) :
    0 < q ∧ ∃ b, s.bins.find? (fun bb => bb.name = bc) = some b ∧
      out.state.bins = updateFirst (fun bb => bb.name = bc)
        (fun _ => { b with
            fill := max 0 (b.fill - if q > b.fill then b.fill else q) }) s.bins := by
  by_cases hg : bc = "" ∨ q ≤ 0
  · rw [submit_unload, if_pos hg] at h
    exact absurd h (by simp)
  · push_neg at hg
    refine ⟨hg.2, ?_⟩
    rw [submit_unload, if_neg (by push_neg; exact hg)] at h
    cases hf : s.bins.find? (fun bb => bb.name = bc) with
    | none => rw [hf] at h; simp at h
    | some b =>
      rw [hf] at h
      refine ⟨b, rfl, ?_⟩
      have h2 := congrArg (fun o => match o with
        | Except.ok (o : UnloadOutcome) => o.state.bins
        | Except.error _ => []) h
      exact h2.symm

/-! ### Claim theorems -/

/-- C3: delivering a variety whose stripped form is different from the
bin's non-empty stripped assigned variety fails with `varietyMismatch`,
and the applied state is the old state unchanged — fill, assigned variety
and the delivery log are all untouched (no partial application). -/
theorem C3_variety_mismatch_atomic (s : State) (ts truck bc v : String)
    (q : ℚ) (notes : String) (b : Bin) (hbc : bc ≠ "") (hq : 0 < q)
    (hfind : s.bins.find? (fun bb => bb.name = bc) = some b)
    (h1 : strip b.variety ≠ "") (h2 : strip v ≠ strip b.variety) :
    submit_delivery s ts truck bc v q notes =
      .error (.varietyMismatch (strip b.variety) (strip v)) ∧
    applyDelivery s ts truck bc v q notes = s := by
  have he : submit_delivery s ts truck bc v q notes =
      .error (.varietyMismatch (strip b.variety) (strip v)) := by
    rw [submit_delivery_some s ts truck bc v q notes b hbc hq hfind,
        deliverCore_mismatch h1 h2]
  exact ⟨he, by rw [applyDelivery, he]⟩

/-- C5: an unload takes `min(quantity, fill)`; when the request exceeds the
fill it takes exactly the fill, reports the insufficient-stock warning and
leaves the bin empty — with the assigned variety untouched; the resulting
fill is never negative. -/
theorem C5_unload_clamps_to_fill (s : State) (ts bc dest : String) (q : ℚ)
    (notes : String) (b : Bin) (hbc : bc ≠ "") (hq : 0 < q)
    (hfind : s.bins.find? (fun bb => bb.name = bc) = some b) :
    ∃ out, submit_unload s ts bc dest q notes = .ok out ∧
      out.take = min q b.fill ∧
      ∃ b', out.state.bins.find? (fun bb => bb.name = bc) = some b' ∧
        0 ≤ b'.fill ∧ b'.variety = b.variety ∧ b'.capacity = b.capacity ∧
        (b.fill < q → out.insufficient = true ∧ out.take = b.fill ∧
          b'.fill = 0) ∧
        (q ≤ b.fill → out.insufficient = false ∧ b'.fill = b.fill - q) := by
  rw [submit_unload_some s ts bc dest q notes b hbc hq hfind]
  have hname := List.find?_some hfind
  refine ⟨_, rfl, ?_, _, find?_updateFirst hfind hname, ?_, rfl, rfl, ?_, ?_⟩
  · by_cases hqf : q > b.fill
    · rw [if_pos hqf, min_eq_right (le_of_lt hqf)]
    · rw [if_neg hqf, min_eq_left (not_lt.mp hqf)]
  · exact le_max_left 0 _
  · intro hlt
    refine ⟨decide_eq_true hlt, ?_, ?_⟩
    · show (if q > b.fill then b.fill else q) = b.fill
      rw [if_pos hlt]
    · show max 0 (b.fill - if q > b.fill then b.fill else q) = 0
      rw [if_pos hlt]
      simp
  · intro hle
    refine ⟨decide_eq_false (not_lt.mpr hle), ?_⟩
    show max 0 (b.fill - if q > b.fill then b.fill else q) = b.fill - q
    rw [if_neg (not_lt.mpr hle), max_eq_right (sub_nonneg.mpr hle)]

/-- C6: delivering a non-empty (stripped) variety into a bin whose stripped
assigned variety is empty succeeds, adopts the stripped delivered variety
as the bin's variety, and — when the capacity is zero or the quantity is at
most the remaining room — adds exactly the delivered quantity, with no
clamp warning. -/
theorem C6_first_fill_adopts_variety (s : State) (ts truck bc v : String)
    (q : ℚ) (notes : String) (b : Bin) (hbc : bc ≠ "") (hq : 0 < q)
    (hfind : s.bins.find? (fun bb => bb.name = bc) = some b)
    (hempty : strip b.variety = "") (hv : strip v ≠ "")
    (hfit : b.capacity = 0 ∨ q ≤ max 0 (b.capacity - b.fill)) :
    ∃ out, submit_delivery s ts truck bc v q notes = .ok out ∧
      out.addAmt = q ∧ out.clamped = false ∧
      ∃ b', out.state.bins.find? (fun bb => bb.name = bc) = some b' ∧
        b'.variety = strip v ∧ b'.fill = b.fill + q := by
  have hnc : ¬(b.capacity > 0 ∧ q > max 0 (b.capacity - b.fill)) := by
    rcases hfit with h | h
    · simp [h]
    · exact fun hc => absurd h (not_le.mpr hc.2)
  rw [submit_delivery_some s ts truck bc v q notes b hbc hq hfind,
      deliverCore_adopt hempty, if_neg hnc]
  have hname := List.find?_some hfind
  exact ⟨_, rfl, rfl, rfl, _, find?_updateFirst hfind hname, rfl, rfl⟩

/-- C9: delivering a variety that strips to the empty string into a bin
whose stripped assigned variety is empty is accepted (not rejected): the
bin's variety afterwards is the empty string and its fill has grown by the
accepted amount, so a bin can hold a positive fill with no assigned
variety. -/
theorem C9_empty_variety_delivery_accepted (s : State) (ts truck bc v : String)
    (q : ℚ) (notes : String) (b : Bin) (hbc : bc ≠ "") (hq : 0 < q)
    (hfind : s.bins.find? (fun bb => bb.name = bc) = some b)
    (hv : strip v = "") (hempty : strip b.variety = "") :
    ∃ out, submit_delivery s ts truck bc v q notes = .ok out ∧
      ∃ b', out.state.bins.find? (fun bb => bb.name = bc) = some b' ∧
        b'.variety = "" ∧ b'.fill = b.fill + out.addAmt := by
  rw [submit_delivery_some s ts truck bc v q notes b hbc hq hfind,
      deliverCore_adopt hempty]
  have hname := List.find?_some hfind
  by_cases h2 : b.capacity > 0 ∧ q > max 0 (b.capacity - b.fill)
  · rw [if_pos h2]
    exact ⟨_, rfl, _, find?_updateFirst hfind hname, hv, rfl⟩
  · rw [if_neg h2]
    exact ⟨_, rfl, _, find?_updateFirst hfind hname, hv, rfl⟩

/-- Component facts of any accepted `deliverCore` run: the clamp flag is
false exactly on the unclamped branch, where the added amount is the full
request; on the clamped branch the added amount is strictly short of the
request; the bin's fill grows by the added amount, name and capacity are
unchanged. -/
theorem deliverCore_ok_facts {b : Bin} {v : String} {q : ℚ} {b' : Bin}
    {cv : String} {a : ℚ} {c : Bool} {e : ℚ}
    (h : deliverCore b v q = .ok (b', cv, a, c, e)) :
    (c = false → a = q) ∧ (c = true → a < q) ∧
    b'.fill = b.fill + a ∧ b'.name = b.name ∧ b'.capacity = b.capacity ∧
    cv = strip b'.variety ∧ cv = strip cv ∧
    (c = true → 0 < b.capacity ∧ a = max 0 (b.capacity - b.fill)) ∧
    (c = false → 0 < b.capacity → q ≤ max 0 (b.capacity - b.fill)) := by
  by_cases h1 : strip b.variety = ""
  · rw [deliverCore_adopt h1] at h
    by_cases h2 : b.capacity > 0 ∧ q > max 0 (b.capacity - b.fill)
    · rw [if_pos h2] at h
      simp only [Except.ok.injEq, Prod.mk.injEq] at h
      obtain ⟨hb', hcv, ha, hc, he⟩ := h
      subst hb'; subst hcv; subst ha; subst hc
      exact ⟨by simp, fun _ => h2.2, rfl, rfl, rfl,
             (strip_strip v).symm, (strip_strip v).symm,
             fun _ => ⟨h2.1, rfl⟩, by simp⟩
    · rw [if_neg h2] at h
      simp only [Except.ok.injEq, Prod.mk.injEq] at h
      obtain ⟨hb', hcv, ha, hc, he⟩ := h
      subst hb'; subst hcv; subst ha; subst hc
      exact ⟨fun _ => rfl, by simp, rfl, rfl, rfl,
             (strip_strip v).symm, (strip_strip v).symm, by simp,
             fun _ hcp => not_lt.mp (fun hgt => h2 ⟨hcp, hgt⟩)⟩
  · by_cases h2v : strip v = strip b.variety
    · rw [deliverCore_keep h1 h2v] at h
      by_cases h2 : b.capacity > 0 ∧ q > max 0 (b.capacity - b.fill)
      · rw [if_pos h2] at h
        simp only [Except.ok.injEq, Prod.mk.injEq] at h
        obtain ⟨hb', hcv, ha, hc, he⟩ := h
        subst hb'; subst hcv; subst ha; subst hc
        exact ⟨by simp, fun _ => h2.2, rfl, rfl, rfl,
               rfl, (strip_strip b.variety).symm,
               fun _ => ⟨h2.1, rfl⟩, by simp⟩
      · rw [if_neg h2] at h
        simp only [Except.ok.injEq, Prod.mk.injEq] at h
        obtain ⟨hb', hcv, ha, hc, he⟩ := h
        subst hb'; subst hcv; subst ha; subst hc
        exact ⟨fun _ => rfl, by simp, rfl, rfl, rfl,
               rfl, (strip_strip b.variety).symm, by simp,
               fun _ hcp => not_lt.mp (fun hgt => h2 ⟨hcp, hgt⟩)⟩
    · rw [deliverCore_mismatch h1 h2v] at h
      exact absurd h (by simp)

/-- Accepted deliveries preserve the per-bin invariant. -/
theorem deliverCore_binOK {b : Bin} {v : String} {q : ℚ} {b' : Bin}
    {cv : String} {a : ℚ} {c : Bool} {e : ℚ} (hb : binOK b) (hq : 0 < q)
    (h : deliverCore b v q = .ok (b', cv, a, c, e)) : binOK b' := by
  obtain ⟨hf0, hfc⟩ := hb
  obtain ⟨hcf, hct, hfill, hnm, hcap, -, -, hclamp, hfit⟩ :=
    deliverCore_ok_facts h
  rw [binOK, hfill, hcap]
  cases c with
  | true =>
    obtain ⟨hcp, ha⟩ := hclamp rfl
    subst ha
    refine ⟨add_nonneg hf0 (le_max_left 0 _), ?_⟩
    rcases hfc with hc0 | hle
    · exact absurd hcp (by rw [hc0]; exact lt_irrefl 0)
    · refine Or.inr ?_
      rw [max_eq_right (sub_nonneg.mpr hle)]
      linarith
  | false =>
    have ha := hcf rfl
    subst ha
    refine ⟨add_nonneg hf0 hq.le, ?_⟩
    by_cases hcp : 0 < b.capacity
    · have hqr := hfit rfl hcp
      rcases hfc with hc0 | hle
      · exact absurd hcp (by rw [hc0]; exact lt_irrefl 0)
      · refine Or.inr ?_
        rw [max_eq_right (sub_nonneg.mpr hle)] at hqr
        linarith
    · rcases hfc with hc0 | hle
      · exact Or.inl hc0
      · exact Or.inl (le_antisymm (not_lt.mp hcp) (le_trans hf0 hle))

theorem add_max_sub_eq_max (x y : ℚ) : x + max 0 (y - x) = max x y := by
  rcases le_total x y with h | h
  · rw [max_eq_right (sub_nonneg.mpr h), max_eq_right h]; ring
  · rw [max_eq_left (sub_nonpos.mpr h), max_eq_left h]; ring

/-- C1 (amended): every accepted delivery appends exactly one row to the
delivery log, and that row's Bushels field records the requested quantity,
not the amount actually added; the two agree exactly when no capacity
clamping occurred (on a clamped delivery the amount added is strictly
smaller than the logged quantity). -/
theorem C1_log_records_requested_quantity (s : State) (ts truck bc v : String)
    (q : ℚ) (notes : String) (out : DeliveryOutcome)
    (h : submit_delivery s ts truck bc v q notes = .ok out) :
    ∃ row : DeliveryRow,
      out.state.deliveries = s.deliveries ++ [row] ∧ row.bushels = q ∧
      (out.clamped = false → out.addAmt = q) ∧
      (out.clamped = true → out.addAmt < q) := by
  obtain ⟨hq, b, b', cv, hfind, hd, hstate⟩ := submit_delivery_ok_shape h
  obtain ⟨hcf, hct, -, -, -, -, -, -, -⟩ := deliverCore_ok_facts hd
  rw [hstate]
  exact ⟨_, rfl, rfl, hcf, hct⟩

/-- C10: the Variety field of the appended delivery row is the bin's
assigned variety as of the completed operation, whitespace-stripped — in
particular the logged variety is itself a stripped string, not the raw
caller input. -/
theorem C10_log_variety_is_bin_variety (s : State) (ts truck bc v : String)
    (q : ℚ) (notes : String) (out : DeliveryOutcome)
    (h : submit_delivery s ts truck bc v q notes = .ok out) :
    ∃ row b', out.state.deliveries = s.deliveries ++ [row] ∧
      out.state.bins.find? (fun bb => bb.name = bc) = some b' ∧
      row.variety = strip b'.variety ∧ row.bin = bc ∧
      row.variety = strip row.variety := by
  obtain ⟨hq, b, b', cv, hfind, hd, hstate⟩ := submit_delivery_ok_shape h
  obtain ⟨-, -, -, hnm, -, hcv, hcvs, -, -⟩ := deliverCore_ok_facts hd
  have hname : (fun bb => decide (bb.name = bc)) b' = true := by
    have hb := List.find?_some hfind
    simp only [hnm]
    exact hb
  rw [hstate]
  exact ⟨_, b', rfl, find?_updateFirst hfind hname, hcv, rfl, hcvs⟩

/-- C2 (amended): the invariant (`0 ≤ fill` and `capacity = 0 ∨ fill ≤
capacity`) is preserved by deliveries, unloads, the sidebar reset-fill
action, bin deletion, and creation of a new bin from a non-negative
capacity input.  (It is NOT preserved by the capacity-overwriting edit
paths — see the counterexample.) -/
theorem C2_invariant_amended (s : State) (hs : stateOK s) :
    (∀ ts truck bc v q notes out,
        submit_delivery s ts truck bc v q notes = .ok out →
        stateOK out.state) ∧
    (∀ ts bc dest q notes out,
        submit_unload s ts bc dest q notes = .ok out → stateOK out.state) ∧
    stateOK (reset_all_fill s) ∧
    (∀ sel, stateOK (delete_bin s sel)) ∧
    (∀ nm cap v s', 0 ≤ cap →
        s.bins.find? (fun b => b.name = nm) = none →
        add_update_bin s nm cap v = .ok s' → stateOK s') := by
  refine ⟨?_, ?_, ?_, ?_, ?_⟩
  · intro ts truck bc v q notes out h
    obtain ⟨hq, b, b', cv, hfind, hd, hstate⟩ := submit_delivery_ok_shape h
    rw [hstate]
    intro b'' hmem
    rcases mem_updateFirst hmem with hmem' | ⟨b₀, hb₀, rfl⟩
    · exact hs _ hmem'
    · exact deliverCore_binOK (hs b (List.mem_of_find?_eq_some hfind)) hq hd
  · intro ts bc dest q notes out h
    obtain ⟨hq, b, hfind, hbins⟩ := submit_unload_ok_shape h
    intro b'' hmem
    rw [hbins] at hmem
    rcases mem_updateFirst hmem with hmem' | ⟨b₀, hb₀, rfl⟩
    · exact hs _ hmem'
    · obtain ⟨hf0, hfc⟩ := hs b (List.mem_of_find?_eq_some hfind)
      have htake0 : 0 ≤ (if q > b.fill then b.fill else q) := by
        by_cases hqf : q > b.fill
        · rw [if_pos hqf]; exact hf0
        · rw [if_neg hqf]; exact hq.le
      constructor
      · exact le_max_left 0 _
      · rcases hfc with hc0 | hle
        · exact Or.inl hc0
        · refine Or.inr (max_le (le_trans hf0 hle) ?_)
          exact le_trans (sub_le_self _ htake0) hle
  · intro b'' hmem
    obtain ⟨b₀, hb₀, rfl⟩ := List.mem_map.mp hmem
    obtain ⟨hf0, hfc⟩ := hs b₀ hb₀
    refine ⟨le_refl 0, ?_⟩
    rcases hfc with hc0 | hle
    · exact Or.inl hc0
    · exact Or.inr (le_trans hf0 hle)
  · intro sel b'' hmem
    exact hs _ (List.mem_of_mem_eraseP hmem)
  · intro nm cap v s' hcap hnone h
    by_cases hg : strip nm = ""
    · rw [add_update_bin, if_pos hg] at h
      exact absurd h (by simp)
    · rw [add_update_bin, if_neg hg, hnone] at h
      have h2 : Except.ok (ε := FarmError)
          { s with bins := s.bins ++
              [⟨strip nm, if cap = 0 then 0 else cap, strip v, 0⟩] } =
            .ok s' := h
      injection h2 with h3
      subst h3
      intro b'' hmem
      rcases List.mem_append.mp hmem with hmem' | hmem'
      · exact hs _ hmem'
      · rw [List.mem_singleton.mp hmem']
        refine ⟨le_refl 0, ?_⟩
        by_cases hc : cap = 0
        · exact Or.inl (by simp [hc])
        · refine Or.inr ?_
          simp only [if_neg hc]
          exact hcap

/-- C4 (amended): delivering into a positive-capacity bin with a compatible
variety: if the quantity exceeds `remaining = max(0, capacity - fill)`,
exactly `remaining` is accepted, the clamp warning reports the exact
excess, and the new fill is `max(fill, capacity)` — equal to `capacity`
whenever `fill ≤ capacity` held beforehand; if the quantity is at most
`remaining`, the full quantity is accepted with no warning. -/
theorem C4_capacity_clamp_amended (s : State) (ts truck bc v : String)
    (q : ℚ) (notes : String) (b : Bin) (hbc : bc ≠ "") (hq : 0 < q)
    (hfind : s.bins.find? (fun bb => bb.name = bc) = some b)
    (hvar : strip b.variety = "" ∨ strip v = strip b.variety)
    (hcap : 0 < b.capacity) :
    (max 0 (b.capacity - b.fill) < q →
      ∃ out, submit_delivery s ts truck bc v q notes = .ok out ∧
        out.clamped = true ∧ out.addAmt = max 0 (b.capacity - b.fill) ∧
        out.excess = q - max 0 (b.capacity - b.fill) ∧
        ∃ b', out.state.bins.find? (fun bb => bb.name = bc) = some b' ∧
          b'.fill = max b.fill b.capacity ∧
          (b.fill ≤ b.capacity → b'.fill = b.capacity)) ∧
    (q ≤ max 0 (b.capacity - b.fill) →
      ∃ out, submit_delivery s ts truck bc v q notes = .ok out ∧
        out.clamped = false ∧ out.addAmt = q ∧
        ∃ b', out.state.bins.find? (fun bb => bb.name = bc) = some b' ∧
          b'.fill = b.fill + q) := by
  rw [submit_delivery_some s ts truck bc v q notes b hbc hq hfind]
  have hname := List.find?_some hfind
  by_cases hemp : strip b.variety = ""
  · rw [deliverCore_adopt hemp]
    constructor
    · intro hgt
      rw [if_pos ⟨hcap, hgt⟩]
      refine ⟨_, rfl, rfl, rfl, rfl, _, find?_updateFirst hfind hname, ?_, ?_⟩
      · exact add_max_sub_eq_max b.fill b.capacity
      · intro hle
        rw [show (⟨b.name, b.capacity, strip v,
              b.fill + max 0 (b.capacity - b.fill)⟩ : Bin).fill =
            b.fill + max 0 (b.capacity - b.fill) from rfl,
          add_max_sub_eq_max, max_eq_right hle]
    · intro hle
      rw [if_neg (fun hc => absurd hle (not_le.mpr hc.2))]
      exact ⟨_, rfl, rfl, rfl, _, find?_updateFirst hfind hname, rfl⟩
  · have hkeep := hvar.resolve_left hemp
    rw [deliverCore_keep hemp hkeep]
    constructor
    · intro hgt
      rw [if_pos ⟨hcap, hgt⟩]
      refine ⟨_, rfl, rfl, rfl, rfl, _, find?_updateFirst hfind hname, ?_, ?_⟩
      · exact add_max_sub_eq_max b.fill b.capacity
      · intro hle
        rw [show (⟨b.name, b.capacity, b.variety,
              b.fill + max 0 (b.capacity - b.fill)⟩ : Bin).fill =
            b.fill + max 0 (b.capacity - b.fill) from rfl,
          add_max_sub_eq_max, max_eq_right hle]
    · intro hle
      rw [if_neg (fun hc => absurd hle (not_le.mpr hc.2))]
      exact ⟨_, rfl, rfl, rfl, _, find?_updateFirst hfind hname, rfl⟩

/-- C7 (amended): submitting the Add / Update Bin form with a name that
already exists does not fail with a duplicate error — it updates that bin
in place: capacity becomes the input when non-negative, variety the
stripped input, while name and fill are preserved; the logs are
untouched. -/
theorem C7_add_form_updates_existing (s : State) (nm : String) (cap : ℚ)
    (v : String) (b : Bin) (hnm : strip nm ≠ "")
    (hfind : s.bins.find? (fun bb => bb.name = nm) = some b) :
    ∃ s', add_update_bin s nm cap v = .ok s' ∧
      s'.bins.find? (fun bb => bb.name = nm) = some
        ⟨b.name, if 0 ≤ cap then cap else b.capacity, strip v, b.fill⟩ ∧
      s'.deliveries = s.deliveries ∧ s'.unloads = s.unloads := by
  rw [add_update_bin, if_neg hnm, hfind]
  have hname := List.find?_some hfind
  exact ⟨_, rfl, find?_updateFirst hfind hname, rfl, rfl⟩

/-- C8 (amended): the Delete Bin action removes the selected bin
unconditionally: even with a positive fill the bin is dropped (the
registry shrinks by one row) and no error of any kind is raised; the logs
are untouched. -/
theorem C8_delete_unconditional (s : State) (sel : String) (b : Bin)
    (hfind : s.bins.find? (fun bb => bb.name = sel) = some b)
    (hfill : 0 < b.fill) :
    (delete_bin s sel).bins.length + 1 = s.bins.length ∧
    (delete_bin s sel).deliveries = s.deliveries ∧
    (delete_bin s sel).unloads = s.unloads := by
  refine ⟨?_, rfl, rfl⟩
  have hmem := List.mem_of_find?_eq_some hfind
  have h1 := List.length_eraseP_of_mem hmem (List.find?_some hfind)
  have h2 : 0 < s.bins.length :=
    List.length_pos.mpr (List.ne_nil_of_mem hmem)
  show (s.bins.eraseP (fun bb => bb.name = sel)).length + 1 = s.bins.length
  omega


/-- Concrete clamped delivery used by several witnesses: bin A (cap 100,
fill 40, Wheat), deliver 70 Wheat: 60 accepted, clamped, fill 100, but the
log row records 70. -/
theorem deliveryW_eq :
    submit_delivery ⟨[⟨"A", 100, "Wheat", 40⟩], [], []⟩ "t" "T" "A" "Wheat" 70 ""
      = .ok ⟨⟨[⟨"A", 100, "Wheat", 100⟩], [⟨"t", "T", "A", "Wheat", 70, ""⟩], []⟩,
             60, true, 10⟩ := by
  rw [submit_delivery_some ⟨[⟨"A", 100, "Wheat", 40⟩], [], []⟩ "t" "T" "A"
        "Wheat" 70 "" ⟨"A", 100, "Wheat", 40⟩ (by decide) (by decide) rfl,
      deliverCore_keep (by decide) (by decide)]
  dsimp only
  rw [max_eq_right (by norm_num : (0:ℚ) ≤ 100 - 40),
      if_pos (⟨by norm_num, by norm_num⟩ : (100:ℚ) > 0 ∧ (70:ℚ) > 100 - 40)]
  simp only [updateFirst]
  norm_num [(by decide : strip "Wheat" = "Wheat"), (by decide : strip "T" = "T"),
    (by decide : strip "" = ""), (by decide : decide ("A" = "A") = true)]


/-- C1 counterexample: bin A (capacity 100, fill 90); delivering 50 bu of
Wheat is clamped to 10 bu actually added (fill 90 → 100), yet the appended
log row records Bushels = 50 — the requested, not the stored, quantity
(and 50 ≠ 10). -/
theorem C1_counterexample :
    submit_delivery ⟨[⟨"A", 100, "Wheat", 90⟩], [], []⟩ "t" "T" "A" "Wheat" 50 ""
      = .ok ⟨⟨[⟨"A", 100, "Wheat", 100⟩], [⟨"t", "T", "A", "Wheat", 50, ""⟩], []⟩,
             10, true, 40⟩ ∧ ((50 : ℚ) ≠ 10) := by
  constructor
  · rw [submit_delivery_some ⟨[⟨"A", 100, "Wheat", 90⟩], [], []⟩ "t" "T" "A"
          "Wheat" 50 "" ⟨"A", 100, "Wheat", 90⟩ (by decide) (by decide) rfl,
        deliverCore_keep (by decide) (by decide)]
    dsimp only
    rw [max_eq_right (by norm_num : (0:ℚ) ≤ 100 - 90),
        if_pos (⟨by norm_num, by norm_num⟩ : (100:ℚ) > 0 ∧ (50:ℚ) > 100 - 90)]
    simp only [updateFirst]
    norm_num [(by decide : strip "Wheat" = "Wheat"),
      (by decide : strip "T" = "T"), (by decide : strip "" = ""),
      (by decide : decide ("A" = "A") = true)]
  · norm_num

/-- C1 witness for the amended claim, at the concrete clamped delivery of
`deliveryW_eq`. -/
theorem C1_witness :
    ∃ row : DeliveryRow,
      (⟨[⟨"A", 100, "Wheat", 100⟩], [⟨"t", "T", "A", "Wheat", 70, ""⟩], []⟩ :
          State).deliveries = [] ++ [row] ∧ row.bushels = 70 ∧
      (true = false → (60 : ℚ) = 70) ∧ (true = true → (60 : ℚ) < 70) :=
  C1_log_records_requested_quantity ⟨[⟨"A", 100, "Wheat", 40⟩], [], []⟩
    "t" "T" "A" "Wheat" 70 ""
    ⟨⟨[⟨"A", 100, "Wheat", 100⟩], [⟨"t", "T", "A", "Wheat", 70, ""⟩], []⟩,
     60, true, 10⟩ deliveryW_eq

/-- C2 counterexample: the Save Changes edit lowers the capacity of bin A
from 1000 to 100 below its fill of 500, breaking `fill ≤ capacity`. -/
theorem C2_counterexample :
    stateOK ⟨[⟨"A", 1000, "Wheat", 500⟩], [], []⟩ ∧
    save_changes ⟨[⟨"A", 1000, "Wheat", 500⟩], [], []⟩ "A" "A" 100 "Wheat" false
      = ⟨[⟨"A", 100, "Wheat", 500⟩], [], []⟩ ∧
    ¬ stateOK ⟨[⟨"A", 100, "Wheat", 500⟩], [], []⟩ := by
  exact ⟨by decide, by decide, by decide⟩

/-- C2 witness: the amended invariant preservation applied at a concrete
state, exercising the delivery and reset-fill components. -/
theorem C2_witness :
    stateOK (⟨[⟨"A", 100, "Wheat", 100⟩], [⟨"t", "T", "A", "Wheat", 70, ""⟩],
      []⟩ : State) ∧
    stateOK (reset_all_fill ⟨[⟨"A", 100, "Wheat", 40⟩], [], []⟩) := by
  have hmain := C2_invariant_amended ⟨[⟨"A", 100, "Wheat", 40⟩], [], []⟩ (by decide)
  exact ⟨hmain.1 "t" "T" "A" "Wheat" 70 "" _ deliveryW_eq, hmain.2.2.1⟩

/-- C3 witness: delivering 600 bu of Corn into bin B already holding Wheat
fails with the mismatch error and changes nothing. -/
theorem C3_witness :
    submit_delivery ⟨[⟨"B", 1000, "Wheat", 600⟩], [], []⟩ "t" "T" "B" "Corn"
        600 "" = .error (.varietyMismatch (strip "Wheat") (strip "Corn")) ∧
    applyDelivery ⟨[⟨"B", 1000, "Wheat", 600⟩], [], []⟩ "t" "T" "B" "Corn"
        600 "" = ⟨[⟨"B", 1000, "Wheat", 600⟩], [], []⟩ :=
  C3_variety_mismatch_atomic ⟨[⟨"B", 1000, "Wheat", 600⟩], [], []⟩ "t" "T" "B"
    "Corn" 600 "" ⟨"B", 1000, "Wheat", 600⟩ (by decide) (by decide) rfl
    (by decide) (by decide)

/-- C4 counterexample: bin A with fill 500 above its capacity 100 (a state
the edit path can produce); delivering 50 bu is clamped with the warning,
but the resulting fill is 500, not the capacity 100. -/
theorem C4_counterexample :
    submit_delivery ⟨[⟨"A", 100, "Wheat", 500⟩], [], []⟩ "t" "T" "A" "Wheat" 50 ""
      = .ok ⟨⟨[⟨"A", 100, "Wheat", 500⟩], [⟨"t", "T", "A", "Wheat", 50, ""⟩], []⟩,
             0, true, 50⟩ ∧ ((500 : ℚ) ≠ 100) := by
  constructor
  · rw [submit_delivery_some ⟨[⟨"A", 100, "Wheat", 500⟩], [], []⟩ "t" "T" "A"
          "Wheat" 50 "" ⟨"A", 100, "Wheat", 500⟩ (by decide) (by decide) rfl,
        deliverCore_keep (by decide) (by decide)]
    dsimp only
    rw [max_eq_left (by norm_num : (100:ℚ) - 500 ≤ 0),
        if_pos (⟨by norm_num, by norm_num⟩ : (100:ℚ) > 0 ∧ (50:ℚ) > 0)]
    simp only [updateFirst]
    norm_num [(by decide : strip "Wheat" = "Wheat"),
      (by decide : strip "T" = "T"), (by decide : strip "" = ""),
      (by decide : decide ("A" = "A") = true)]
  · norm_num

/-- C4 witness for the amended claim: bin C (capacity 100, fill 90),
delivering 50 bu of Wheat exceeds the remaining 10 and is clamped. -/
theorem C4_witness :
    ∃ out, submit_delivery ⟨[⟨"C", 100, "Wheat", 90⟩], [], []⟩ "t" "T" "C"
        "Wheat" 50 "" = .ok out ∧
      out.clamped = true ∧ out.addAmt = max 0 ((100:ℚ) - 90) ∧
      out.excess = 50 - max 0 ((100:ℚ) - 90) ∧
      ∃ b', out.state.bins.find? (fun bb => bb.name = "C") = some b' ∧
        b'.fill = max (90:ℚ) 100 ∧ ((90:ℚ) ≤ 100 → b'.fill = 100) :=
  (C4_capacity_clamp_amended ⟨[⟨"C", 100, "Wheat", 90⟩], [], []⟩ "t" "T" "C"
      "Wheat" 50 "" ⟨"C", 100, "Wheat", 90⟩ (by decide) (by decide) rfl
      (Or.inr rfl) (by decide)).1
    (by rw [max_eq_right (by norm_num : (0:ℚ) ≤ 100 - 90)]; norm_num)

/-- C5 witness: bin D holds 1000 bu of Wheat; unloading 1200 bu takes only
1000, warns, empties the bin and keeps its variety. -/
theorem C5_witness :
    ∃ out, submit_unload ⟨[⟨"D", 1000, "Wheat", 1000⟩], [], []⟩ "t" "D"
        "Elevator" 1200 "" = .ok out ∧
      out.take = min (1200:ℚ) 1000 ∧
      ∃ b', out.state.bins.find? (fun bb => bb.name = "D") = some b' ∧
        0 ≤ b'.fill ∧ b'.variety = "Wheat" ∧ b'.capacity = 1000 ∧
        ((1000:ℚ) < 1200 → out.insufficient = true ∧ out.take = 1000 ∧
          b'.fill = 0) ∧
        ((1200:ℚ) ≤ 1000 → out.insufficient = false ∧ b'.fill = 1000 - 1200) :=
  C5_unload_clamps_to_fill ⟨[⟨"D", 1000, "Wheat", 1000⟩], [], []⟩ "t" "D"
    "Elevator" 1200 "" ⟨"D", 1000, "Wheat", 1000⟩ (by decide) (by decide) rfl

/-- C6 witness: bin E is uncapped and unassigned; delivering 600 bu of
Wheat adopts the variety and adds the whole quantity. -/
theorem C6_witness :
    ∃ out, submit_delivery ⟨[⟨"E", 0, "", 0⟩], [], []⟩ "t" "T" "E" "Wheat"
        600 "" = .ok out ∧
      out.addAmt = 600 ∧ out.clamped = false ∧
      ∃ b', out.state.bins.find? (fun bb => bb.name = "E") = some b' ∧
        b'.variety = strip "Wheat" ∧ b'.fill = 0 + 600 :=
  C6_first_fill_adopts_variety ⟨[⟨"E", 0, "", 0⟩], [], []⟩ "t" "T" "E" "Wheat"
    600 "" ⟨"E", 0, "", 0⟩ (by decide) (by decide) rfl (by decide) (by decide)
    (Or.inl rfl)

/-- C7 counterexample: submitting the add form with the existing name A
does not fail — it overwrites capacity and variety of the existing bin. -/
theorem C7_counterexample :
    add_update_bin ⟨[⟨"A", 100, "Wheat", 50⟩], [], []⟩ "A" 200 "Corn"
      = .ok ⟨[⟨"A", 200, "Corn", 50⟩], [], []⟩ ∧
    (⟨"A", 200, "Corn", 50⟩ : Bin) ≠ ⟨"A", 100, "Wheat", 50⟩ := by
  exact ⟨rfl, by decide⟩

/-- C7 witness for the amended claim, at bin F. -/
theorem C7_witness :
    ∃ s', add_update_bin ⟨[⟨"F", 100, "Wheat", 50⟩], [], []⟩ "F" 200 "Corn"
        = .ok s' ∧
      s'.bins.find? (fun bb => bb.name = "F") = some
        ⟨"F", if (0:ℚ) ≤ 200 then 200 else 100, strip "Corn", 50⟩ ∧
      s'.deliveries = [] ∧ s'.unloads = [] :=
  C7_add_form_updates_existing ⟨[⟨"F", 100, "Wheat", 50⟩], [], []⟩ "F" 200
    "Corn" ⟨"F", 100, "Wheat", 50⟩ (by decide) rfl

/-- C8 counterexample: bin A holds 500 bu (> 0) and is still deleted with
no error. -/
theorem C8_counterexample :
    (0:ℚ) < 500 ∧
    delete_bin ⟨[⟨"A", 1000, "Wheat", 500⟩], [], []⟩ "A" = ⟨[], [], []⟩ := by
  exact ⟨by decide, by decide⟩

/-- C8 witness for the amended claim, at bin G with positive fill. -/
theorem C8_witness :
    (delete_bin ⟨[⟨"G", 1000, "Wheat", 500⟩], [], []⟩ "G").bins.length + 1 =
      (⟨[⟨"G", 1000, "Wheat", 500⟩], [], []⟩ : State).bins.length ∧
    (delete_bin ⟨[⟨"G", 1000, "Wheat", 500⟩], [], []⟩ "G").deliveries = [] ∧
    (delete_bin ⟨[⟨"G", 1000, "Wheat", 500⟩], [], []⟩ "G").unloads = [] :=
  C8_delete_unconditional ⟨[⟨"G", 1000, "Wheat", 500⟩], [], []⟩ "G"
    ⟨"G", 1000, "Wheat", 500⟩ rfl (by decide)

/-- C9 witness: bin H's variety is whitespace (strips to empty); a delivery
with an empty variety string is accepted and leaves the variety empty. -/
theorem C9_witness :
    ∃ out, submit_delivery ⟨[⟨"H", 0, "  ", 0⟩], [], []⟩ "t" "T" "H" "" 25 ""
        = .ok out ∧
      ∃ b', out.state.bins.find? (fun bb => bb.name = "H") = some b' ∧
        b'.variety = "" ∧ b'.fill = 0 + out.addAmt :=
  C9_empty_variety_delivery_accepted ⟨[⟨"H", 0, "  ", 0⟩], [], []⟩ "t" "T" "H"
    "" 25 "" ⟨"H", 0, "  ", 0⟩ (by decide) (by decide) rfl (by decide)
    (by decide)

/-- C10 witness at the concrete clamped delivery of `deliveryW_eq`. -/
theorem C10_witness :
    ∃ row b',
      (⟨[⟨"A", 100, "Wheat", 100⟩], [⟨"t", "T", "A", "Wheat", 70, ""⟩], []⟩ :
          State).deliveries = [] ++ [row] ∧
      (⟨[⟨"A", 100, "Wheat", 100⟩], [⟨"t", "T", "A", "Wheat", 70, ""⟩], []⟩ :
          State).bins.find? (fun bb => bb.name = "A") = some b' ∧
      row.variety = strip b'.variety ∧ row.bin = "A" ∧
      row.variety = strip row.variety :=
  C10_log_variety_is_bin_variety ⟨[⟨"A", 100, "Wheat", 40⟩], [], []⟩ "t" "T"
    "A" "Wheat" 70 ""
    ⟨⟨[⟨"A", 100, "Wheat", 100⟩], [⟨"t", "T", "A", "Wheat", 70, ""⟩], []⟩,
     60, true, 10⟩ deliveryW_eq

end Farm
